import Mathlib

/-!
Verification of the retrieval-augmented assessment pipeline of the
`processpulse` repository, against its natural-language specification.

Shallow embedding conventions: Python `int` is `ℤ` (or `ℕ` for values the
spec constrains to be non-negative, such as list indices, `top_k` and the
context window), Python `float` is `ℝ`, Python `str` is `String`,
Python `None`-able values are `Option`, and code paths that may raise are
`Except String`.  Network calls (embedding / LLM generation) are modelled
as outcome parameters of type `Except String _`, since the code treats
them as black boxes that either return a parsed value or raise.
-/

namespace ProcessPulse

/-! ### Data model: `app/services/parsing/chat_parser.py` -/

/-- Embeds `ChatFormat` from `chat_parser.py`. -/
inductive ChatFormat where
  | plain_text
  | lm_studio
  | generic_json
  | unknown
deriving DecidableEq

/-- Embeds the `ChatExchange` dataclass from `chat_parser.py`:
one student-prompt / AI-response pair with a 1-indexed number. -/
structure ChatExchange where
  number : ℤ
  student_prompt : String
  ai_response : String
  timestamp : Option String := none
  model_name : Option String := none
  metadata : List (String × String) := []
deriving DecidableEq

/-- Embeds the `ParsedChatHistory` dataclass from `chat_parser.py`. -/
structure ParsedChatHistory where
  platform : String
  format_detected : ChatFormat
  exchanges : List ChatExchange
  total_exchanges : ℤ
  conversation_name : Option String := none
  raw_content : String := ""
  parsing_notes : List String := []

/-! ### Chunker: `app/services/rag/chunker.py` -/

/-- Embeds the `ChatChunk` dataclass from `chunker.py`.  `char_count` is the
value set by `__post_init__` at construction; `embedding` is `none` until an
embedding is attached. -/
structure ChatChunk where
  chunk_id : String
  exchange_number : ℤ
  student_prompt : String
  ai_response : String
  context_before : List ChatExchange := []
  context_after : List ChatExchange := []
  model_name : Option String := none
  timestamp : Option String := none
  char_count : ℤ := 0
  embedding : Option (List ℝ) := none

/-- Default exchange used only to totalise list indexing (`List.getD`); every
indexed access in the development is guarded by an in-bounds hypothesis. -/
def defaultExchange : ChatExchange :=
  { number := 0, student_prompt := "", ai_response := "" }

/-- Default chunk used only to totalise list indexing. -/
def defaultChunk : ChatChunk :=
  { chunk_id := "", exchange_number := 0, student_prompt := "", ai_response := "" }

/-- Embeds one iteration of the loop body of `chunk_chat_history`
(`chunker.py` lines 125-149) at index `i`:  `context_before` is the Python
slice `exchanges[max(0, i - w) : i]` and `context_after` is
`exchanges[i + 1 : min(len(exchanges), i + w + 1)]`, both empty when the
window `w` is `0` (the code guards with `if context_window > 0`).
Natural-number subtraction renders Python's `max(0, i - w)` as `i - w`. -/
def chunkAt (h : ParsedChatHistory) (w : ℕ) (i : ℕ) : ChatChunk :=
  let exchanges := h.exchanges
  let exchange := exchanges.getD i defaultExchange
  { chunk_id := "chat_" ++ h.platform ++ "_" ++ toString exchange.number
    exchange_number := exchange.number
    student_prompt := exchange.student_prompt
    ai_response := exchange.ai_response
    context_before :=
      if 0 < w then (exchanges.drop (i - w)).take (i - (i - w)) else []
    context_after :=
      if 0 < w then
        (exchanges.drop (i + 1)).take (min exchanges.length (i + w + 1) - (i + 1))
      else []
    model_name := exchange.model_name
    timestamp := exchange.timestamp
    char_count := (exchange.student_prompt.length : ℤ) + (exchange.ai_response.length : ℤ)
    embedding := none }

/-- Embeds `chunk_chat_history` from `chunker.py`: one chunk per exchange,
in exchange order. -/
def chunk_chat_history (h : ParsedChatHistory) (w : ℕ) : List ChatChunk :=
  (List.range h.exchanges.length).map (chunkAt h w)

theorem chunk_chat_history_length (h : ParsedChatHistory) (w : ℕ) :
    (chunk_chat_history h w).length = h.exchanges.length := by
  simp [chunk_chat_history]

theorem chunk_chat_history_getD (h : ParsedChatHistory) (w : ℕ) (i : ℕ)
    (hi : i < h.exchanges.length) :
    (chunk_chat_history h w).getD i defaultChunk = chunkAt h w i := by
  have hlen : i < (chunk_chat_history h w).length := by
    simpa [chunk_chat_history_length] using hi
  rw [List.getD_eq_getElem _ _ hlen]
  simp [chunk_chat_history]

theorem chunkAt_context_before_eq (h : ParsedChatHistory) (w : ℕ) (i : ℕ) :
    (chunkAt h w i).context_before = (h.exchanges.take i).drop (i - w) := by
  simp only [chunkAt]
  by_cases hw : 0 < w
  · rw [if_pos hw, List.drop_take]
  · rw [if_neg hw]
    have hw0 : w = 0 := by omega
    subst hw0
    have : (h.exchanges.take i).length ≤ i - 0 := by
      simp [List.length_take]
    rw [List.drop_eq_nil_of_le this]

theorem chunkAt_context_after_eq (h : ParsedChatHistory) (w : ℕ) (i : ℕ) :
    (chunkAt h w i).context_after = (h.exchanges.drop (i + 1)).take w := by
  simp only [chunkAt]
  by_cases hw : 0 < w
  · rw [if_pos hw]
    rw [List.take_eq_take]
    simp [List.length_drop]
    omega
  · rw [if_neg hw]
    have hw0 : w = 0 := by omega
    subst hw0
    simp

theorem chunkAt_context_before_length (h : ParsedChatHistory) (w : ℕ) (i : ℕ)
    (hi : i < h.exchanges.length) :
    (chunkAt h w i).context_before.length = min w i := by
  rw [chunkAt_context_before_eq]
  simp [List.length_drop, List.length_take]
  omega

theorem chunkAt_context_after_length (h : ParsedChatHistory) (w : ℕ) (i : ℕ)
    (hi : i < h.exchanges.length) :
    (chunkAt h w i).context_after.length = min w (h.exchanges.length - 1 - i) := by
  rw [chunkAt_context_after_eq]
  simp [List.length_take, List.length_drop]
  omega

/-- C3: for every conversation of `n ≥ 1` exchanges and every context window
`w ≥ 0`, chunking produces exactly `n` units in exchange order; the unit at
0-based position `i` has context-before equal to the `min(w, i)` exchanges
immediately preceding it and context-after equal to the `min(w, n - 1 - i)`
exchanges immediately following it; a single-exchange conversation yields
exactly one unit with empty context on both sides. -/
theorem chunking_window_spec (h : ParsedChatHistory) (w : ℕ)
    (hn : 1 ≤ h.exchanges.length) :
    (chunk_chat_history h w).length = h.exchanges.length ∧
    (∀ i, i < h.exchanges.length →
      ((chunk_chat_history h w).getD i defaultChunk).context_before =
        (h.exchanges.take i).drop (i - w) ∧
      ((chunk_chat_history h w).getD i defaultChunk).context_before.length = min w i ∧
      ((chunk_chat_history h w).getD i defaultChunk).context_after =
        (h.exchanges.drop (i + 1)).take w ∧
      ((chunk_chat_history h w).getD i defaultChunk).context_after.length =
        min w (h.exchanges.length - 1 - i) ∧
      ((chunk_chat_history h w).getD i defaultChunk).exchange_number =
        (h.exchanges.getD i defaultExchange).number) ∧
    (h.exchanges.length = 1 →
      (chunk_chat_history h w).length = 1 ∧
      ((chunk_chat_history h w).getD 0 defaultChunk).context_before = [] ∧
      ((chunk_chat_history h w).getD 0 defaultChunk).context_after = []) := by
  refine ⟨chunk_chat_history_length h w, ?_, ?_⟩
  · intro i hi
    rw [chunk_chat_history_getD h w i hi]
    refine ⟨chunkAt_context_before_eq h w i, chunkAt_context_before_length h w i hi,
      chunkAt_context_after_eq h w i, chunkAt_context_after_length h w i hi, ?_⟩
    simp [chunkAt]
  · intro h1
    have h0 : (0 : ℕ) < h.exchanges.length := by omega
    refine ⟨by rw [chunk_chat_history_length, h1], ?_, ?_⟩
    · have hlen := chunkAt_context_before_length h w 0 h0
      rw [chunk_chat_history_getD h w 0 h0]
      exact List.eq_nil_of_length_eq_zero (by simpa using hlen)
    · have hlen := chunkAt_context_after_length h w 0 h0
      rw [chunk_chat_history_getD h w 0 h0]
      refine List.eq_nil_of_length_eq_zero ?_
      rw [hlen, h1]
      simp

/-- Concrete single-exchange conversation used by witnesses. -/
def exampleExchange : ChatExchange :=
  { number := 1, student_prompt := "hi", ai_response := "hello" }

/-- Concrete one-exchange parsed history used by witnesses. -/
def exampleHistory : ParsedChatHistory :=
  { platform := "generic", format_detected := ChatFormat.generic_json,
    exchanges := [exampleExchange], total_exchanges := 1 }

/-- Witness for C3 at a concrete single-exchange conversation and window 1. -/
theorem chunking_window_spec_witness :
    1 ≤ exampleHistory.exchanges.length ∧
    (chunk_chat_history exampleHistory 1).length = 1 ∧
    ((chunk_chat_history exampleHistory 1).getD 0 defaultChunk).context_before = [] ∧
    ((chunk_chat_history exampleHistory 1).getD 0 defaultChunk).context_after = [] := by
  have hn : 1 ≤ exampleHistory.exchanges.length := by
    simp [exampleHistory]
  have h := (chunking_window_spec exampleHistory 1 hn).2.2 (by simp [exampleHistory])
  exact ⟨hn, h.1, h.2.1, h.2.2⟩

/-! ### Cosine similarity: `app/services/rag/retriever.py` lines 35-56 -/

/-- Sum of squares of a vector, i.e. `sum(a * a for a in vec)` from the
magnitude computation in `cosine_similarity`. -/
def sumSq (v : List ℝ) : ℝ := (v.map fun a => a * a).sum

/-- Embeds `cosine_similarity` from `retriever.py`: returns `0.0` when either
vector is empty (Python truthiness `if not vec1 or not vec2`) or when either
magnitude is zero, and otherwise the dot product of the zipped vectors divided
by the product of magnitudes. -/
noncomputable def cosine_similarity (vec1 vec2 : List ℝ) : ℝ :=
  if vec1 = [] ∨ vec2 = [] then 0
  else
    let dot_product := (List.zipWith (fun a b => a * b) vec1 vec2).sum
    let magnitude1 := Real.sqrt (sumSq vec1)
    let magnitude2 := Real.sqrt (sumSq vec2)
    if magnitude1 = 0 ∨ magnitude2 = 0 then 0
    else dot_product / (magnitude1 * magnitude2)

theorem sumSq_nonneg (v : List ℝ) : 0 ≤ sumSq v := by
  refine List.sum_nonneg ?_
  intro x hx
  obtain ⟨a, _, rfl⟩ := List.mem_map.1 hx
  exact mul_self_nonneg a

theorem zipWith_mul_comm (a b : List ℝ) :
    List.zipWith (fun x y => x * y) a b = List.zipWith (fun x y => x * y) b a := by
  induction a generalizing b with
  | nil => cases b <;> simp
  | cons x xs ih => cases b with
    | nil => simp
    | cons y ys => simp [ih, mul_comm]

theorem zipWith_mul_self (v : List ℝ) :
    List.zipWith (fun x y => x * y) v v = v.map fun a => a * a := by
  induction v with
  | nil => simp
  | cons x xs ih => simp [ih]

theorem zipWith_mul_sum_eq (a b : List ℝ) :
    (List.zipWith (fun x y => x * y) a b).sum =
      ∑ i ∈ Finset.range (min a.length b.length), a.getD i 0 * b.getD i 0 := by
  induction a generalizing b with
  | nil => simp
  | cons x xs ih =>
    cases b with
    | nil => simp
    | cons y ys =>
      have hmin : min (x :: xs).length (y :: ys).length = min xs.length ys.length + 1 := by
        simp [List.length_cons]
        omega
      rw [hmin, Finset.sum_range_succ']
      simp only [List.getD_cons_succ, List.getD_cons_zero]
      rw [List.zipWith_cons_cons, List.sum_cons, ih]
      ring

theorem map_mul_self_sum_eq (l : List ℝ) :
    sumSq l = ∑ i ∈ Finset.range l.length, l.getD i 0 * l.getD i 0 := by
  induction l with
  | nil => simp [sumSq]
  | cons x xs ih =>
    rw [sumSq] at *
    simp only [List.length_cons]
    rw [Finset.sum_range_succ']
    simp only [List.getD_cons_succ, List.getD_cons_zero]
    simp [List.sum_cons, ih]
    ring

theorem range_sum_sq_le_sumSq (a : List ℝ) (n : ℕ) (hn : n ≤ a.length) :
    ∑ i ∈ Finset.range n, a.getD i 0 * a.getD i 0 ≤ sumSq a := by
  rw [map_mul_self_sum_eq]
  refine Finset.sum_le_sum_of_subset_of_nonneg (Finset.range_subset.2 hn) ?_
  intro i _ _
  exact mul_self_nonneg _

theorem dot_sq_le_sumSq_mul_sumSq (a b : List ℝ) :
    (List.zipWith (fun x y => x * y) a b).sum ^ 2 ≤ sumSq a * sumSq b := by
  rw [zipWith_mul_sum_eq]
  set n := min a.length b.length with hn
  have hcs := Finset.sum_mul_sq_le_sq_mul_sq (Finset.range n)
    (fun i => a.getD i 0) (fun i => b.getD i 0)
  have ha : ∑ i ∈ Finset.range n, (a.getD i 0) ^ 2 ≤ sumSq a := by
    have := range_sum_sq_le_sumSq a n (by omega)
    simpa [sq] using this
  have hb : ∑ i ∈ Finset.range n, (b.getD i 0) ^ 2 ≤ sumSq b := by
    have := range_sum_sq_le_sumSq b n (by omega)
    simpa [sq] using this
  have hb0 : (0 : ℝ) ≤ ∑ i ∈ Finset.range n, (b.getD i 0) ^ 2 :=
    Finset.sum_nonneg fun i _ => sq_nonneg _
  calc (∑ i ∈ Finset.range n, a.getD i 0 * b.getD i 0) ^ 2
      ≤ (∑ i ∈ Finset.range n, (a.getD i 0) ^ 2) * ∑ i ∈ Finset.range n, (b.getD i 0) ^ 2 :=
        hcs
    _ ≤ sumSq a * sumSq b := by
        exact mul_le_mul ha hb hb0 (sumSq_nonneg a)

theorem abs_dot_le_magnitudes (a b : List ℝ) :
    |(List.zipWith (fun x y => x * y) a b).sum| ≤
      Real.sqrt (sumSq a) * Real.sqrt (sumSq b) := by
  have h1 : (List.zipWith (fun x y => x * y) a b).sum ^ 2 ≤
      (Real.sqrt (sumSq a) * Real.sqrt (sumSq b)) ^ 2 := by
    rw [mul_pow, Real.sq_sqrt (sumSq_nonneg a), Real.sq_sqrt (sumSq_nonneg b)]
    exact dot_sq_le_sumSq_mul_sumSq a b
  have h2 := Real.sqrt_le_sqrt h1
  rwa [Real.sqrt_sq_eq_abs, Real.sqrt_sq
    (mul_nonneg (Real.sqrt_nonneg _) (Real.sqrt_nonneg _))] at h2

theorem zipWith_mul_nonneg :
    ∀ a b : List ℝ, (∀ x ∈ a, 0 ≤ x) → (∀ x ∈ b, 0 ≤ x) →
      ∀ z ∈ List.zipWith (fun x y => x * y) a b, 0 ≤ z := by
  intro a
  induction a with
  | nil => intro b _ _ z hz; simp at hz
  | cons x xs ih =>
    intro b ha hb z hz
    cases b with
    | nil => simp at hz
    | cons y ys =>
      rw [List.zipWith_cons_cons] at hz
      rcases List.mem_cons.1 hz with h | h
      · subst h
        exact mul_nonneg (ha x (List.mem_cons_self x xs)) (hb y (List.mem_cons_self y ys))
      · exact ih ys (fun t ht => ha t (List.mem_cons_of_mem x ht))
          (fun t ht => hb t (List.mem_cons_of_mem y ht)) z h

theorem cosine_bounds (a b : List ℝ) :
    -1 ≤ cosine_similarity a b ∧ cosine_similarity a b ≤ 1 := by
  rw [cosine_similarity]
  split
  · norm_num
  · simp only
    split
    · norm_num
    · rename_i hmag
      push_neg at hmag
      obtain ⟨h1, h2⟩ := hmag
      have h1p : 0 < Real.sqrt (sumSq a) :=
        lt_of_le_of_ne (Real.sqrt_nonneg _) (Ne.symm h1)
      have h2p : 0 < Real.sqrt (sumSq b) :=
        lt_of_le_of_ne (Real.sqrt_nonneg _) (Ne.symm h2)
      have hp : 0 < Real.sqrt (sumSq a) * Real.sqrt (sumSq b) := mul_pos h1p h2p
      have habs := abs_dot_le_magnitudes a b
      constructor
      · rw [le_div_iff₀ hp]
        have := neg_abs_le ((List.zipWith (fun x y => x * y) a b).sum)
        linarith [neg_le_neg habs]
      · rw [div_le_one hp]
        exact le_trans (le_abs_self _) habs

theorem cosine_symm (a b : List ℝ) :
    cosine_similarity a b = cosine_similarity b a := by
  rw [cosine_similarity, cosine_similarity, zipWith_mul_comm]
  by_cases hab : a = [] ∨ b = []
  · rw [if_pos hab, if_pos (Or.symm hab)]
  · rw [if_neg hab, if_neg (fun h => hab (Or.symm h))]
    simp only
    by_cases hm : Real.sqrt (sumSq a) = 0 ∨ Real.sqrt (sumSq b) = 0
    · rw [if_pos (Or.symm hm), if_pos]
      exact hm
    · rw [if_neg (fun h => hm (Or.symm h)), if_neg hm, mul_comm]

theorem cosine_self (v : List ℝ) (hv : v ≠ []) (hx : ∃ x ∈ v, x ≠ 0) :
    cosine_similarity v v = 1 := by
  obtain ⟨x, hxv, hx0⟩ := hx
  have hS : 0 < sumSq v := by
    have hmem : x * x ∈ v.map fun a => a * a := List.mem_map.2 ⟨x, hxv, rfl⟩
    have hle : x * x ≤ sumSq v := by
      refine List.single_le_sum ?_ _ hmem
      intro y hy
      obtain ⟨a, _, rfl⟩ := List.mem_map.1 hy
      exact mul_self_nonneg a
    exact lt_of_lt_of_le (mul_self_pos.2 hx0) hle
  have hms : Real.sqrt (sumSq v) ≠ 0 := (Real.sqrt_pos.2 hS).ne'
  rw [cosine_similarity, if_neg (by simp [hv]), zipWith_mul_self]
  simp only
  rw [if_neg (by simp [hms])]
  rw [← sumSq, ← Real.sqrt_mul_self (sumSq_nonneg v)]
  rw [Real.sqrt_mul_self (sumSq_nonneg v)] at *
  rw [show Real.sqrt (sumSq v) * Real.sqrt (sumSq v) = sumSq v from
    Real.mul_self_sqrt (sumSq_nonneg v)]
  exact div_self hS.ne'

theorem cosine_nonneg_of_nonneg (a b : List ℝ)
    (ha : ∀ x ∈ a, 0 ≤ x) (hb : ∀ x ∈ b, 0 ≤ x) :
    0 ≤ cosine_similarity a b := by
  rw [cosine_similarity]
  split
  · norm_num
  · simp only
    split
    · norm_num
    · refine div_nonneg ?_ (mul_nonneg (Real.sqrt_nonneg _) (Real.sqrt_nonneg _))
      exact List.sum_nonneg (zipWith_mul_nonneg a b ha hb)

theorem cosine_zero_cases (a b : List ℝ)
    (h : a = [] ∨ b = [] ∨ Real.sqrt (sumSq a) = 0 ∨ Real.sqrt (sumSq b) = 0) :
    cosine_similarity a b = 0 := by
  rw [cosine_similarity]
  rcases h with h | h | h | h
  · rw [if_pos (Or.inl h)]
  · rw [if_pos (Or.inr h)]
  all_goals by_cases hab : a = [] ∨ b = []
  · rw [if_pos hab]
  · rw [if_neg hab]
    simp only
    rw [if_pos (Or.inl h)]
  · rw [if_pos hab]
  · rw [if_neg hab]
    simp only
    rw [if_pos (Or.inr h)]

/-- C7: cosine similarity is symmetric; equals `1` on any non-empty,
non-zero vector paired with itself; lies in `[-1, 1]` for arbitrary real
vectors and in `[0, 1]` for entrywise non-negative vectors; and returns
exactly `0` whenever either vector is empty or has zero magnitude, with no
division by zero (the zero-denominator branches are short-circuited). -/
theorem cosine_similarity_spec :
    (∀ a b : List ℝ, cosine_similarity a b = cosine_similarity b a) ∧
    (∀ v : List ℝ, v ≠ [] → (∃ x ∈ v, x ≠ 0) → cosine_similarity v v = 1) ∧
    (∀ a b : List ℝ, -1 ≤ cosine_similarity a b ∧ cosine_similarity a b ≤ 1) ∧
    (∀ a b : List ℝ, (∀ x ∈ a, 0 ≤ x) → (∀ x ∈ b, 0 ≤ x) →
      0 ≤ cosine_similarity a b ∧ cosine_similarity a b ≤ 1) ∧
    (∀ a b : List ℝ,
      (a = [] ∨ b = [] ∨ Real.sqrt (sumSq a) = 0 ∨ Real.sqrt (sumSq b) = 0) →
      cosine_similarity a b = 0) := by
  refine ⟨cosine_symm, cosine_self, cosine_bounds, ?_, cosine_zero_cases⟩
  intro a b ha hb
  exact ⟨cosine_nonneg_of_nonneg a b ha hb, (cosine_bounds a b).2⟩

/-- Witness for C7 at the concrete vector `[1]`: the self-similarity and
non-negativity clauses hold with their hypotheses discharged. -/
theorem cosine_similarity_spec_witness :
    ([(1 : ℝ)] ≠ [] ∧ ∃ x ∈ [(1 : ℝ)], x ≠ 0) ∧
    cosine_similarity [(1 : ℝ)] [(1 : ℝ)] = 1 := by
  have h1 : [(1 : ℝ)] ≠ [] := by simp
  have h2 : ∃ x ∈ [(1 : ℝ)], x ≠ 0 := ⟨1, by simp, one_ne_zero⟩
  exact ⟨⟨h1, h2⟩, cosine_similarity_spec.2.1 [(1 : ℝ)] h1 h2⟩

/-! ### Retriever: `app/services/rag/retriever.py` -/

/-- Embeds the `RetrievalResult` dataclass: a retrieved chunk with its
similarity score and 1-indexed rank. -/
structure RetrievalResult where
  chunk : ChatChunk
  score : ℝ
  rank : ℤ

/-- Embeds `Retriever.add_chunks`: filters out chunks whose `embedding` is
`None` (`c.embedding is not None`) and appends the rest to the index. -/
def add_chunks (index : List ChatChunk) (chunks : List ChatChunk) : List ChatChunk :=
  index ++ chunks.filter (fun c => c.embedding.isSome)

/-- Index states reachable through the `Retriever` API: a fresh retriever
(`__init__`), `add_chunks`, and `clear` (which resets to `[]`). -/
inductive ReachableIndex : List ChatChunk → Prop where
  | init : ReachableIndex []
  | add (s : List ChatChunk) (chunks : List ChatChunk) :
      ReachableIndex s → ReachableIndex (add_chunks s chunks)
  | clear (s : List ChatChunk) : ReachableIndex s → ReachableIndex []

/-- Embeds the scoring loop of `Retriever.search` (lines 117-123): for each
indexed chunk, if its embedding is truthy (`if chunk.embedding:` — neither
`None` nor the empty list), compute its cosine similarity against the query
embedding and keep it when the score is at least `min_score`. -/
noncomputable def scoredChunks (query_embedding : List ℝ) (min_score : ℝ) :
    List ChatChunk → List (ChatChunk × ℝ)
  | [] => []
  | c :: cs =>
    match c.embedding with
    | none => scoredChunks query_embedding min_score cs
    | some v =>
      if v = [] then scoredChunks query_embedding min_score cs
      else if min_score ≤ cosine_similarity query_embedding v then
        (c, cosine_similarity query_embedding v) :: scoredChunks query_embedding min_score cs
      else scoredChunks query_embedding min_score cs

/-- Inserts an entry into a score-descending list, after every entry of
strictly greater score and before the first entry of smaller-or-equal score.
Together with `sortByScoreDesc` this models
`scored_chunks.sort(key=lambda x: x[1], reverse=True)`: CPython's `list.sort`
is documented stable, and a stable descending sort is exactly insertion
before the first element whose key is `≤` the inserted key when elements are
inserted right-to-left. -/
noncomputable def insertDesc (x : ChatChunk × ℝ) :
    List (ChatChunk × ℝ) → List (ChatChunk × ℝ)
  | [] => [x]
  | y :: ys => if y.2 ≤ x.2 then x :: y :: ys else y :: insertDesc x ys

/-- Stable descending sort by score (see `insertDesc`). -/
noncomputable def sortByScoreDesc : List (ChatChunk × ℝ) → List (ChatChunk × ℝ)
  | [] => []
  | x :: xs => insertDesc x (sortByScoreDesc xs)

/-- Embeds the rank-assigning loop of `Retriever.search` (lines 129-135):
`enumerate(scored_chunks[:top_k], 1)`. -/
def rankResults (n : ℤ) : List (ChatChunk × ℝ) → List RetrievalResult
  | [] => []
  | p :: rest => { chunk := p.1, score := p.2, rank := n } :: rankResults (n + 1) rest

/-- The result list built by `Retriever.search` once the guards have passed:
score the chunks, sort descending, truncate to `top_k`, attach 1-indexed
ranks. -/
noncomputable def searchResults (index : List ChatChunk) (query_embedding : List ℝ)
    (top_k : ℕ) (min_score : ℝ) : List RetrievalResult :=
  rankResults 1 ((sortByScoreDesc (scoredChunks query_embedding min_score index)).take top_k)

/-- Embeds `Retriever.search`.  The query-embedding network call
(`embed_query`) is modelled by its outcome `embedOutcome`: `Except.error`
when the call raises (the Ollama client wraps any transport failure in a
raised `RuntimeError`) and `Except.ok` with the returned vector otherwise.
The code returns `[]` for an empty index before embedding the query, re-raises
an embedding exception, returns `[]` for a falsy (empty) query embedding, and
otherwise returns the scored-sorted-truncated results. -/
noncomputable def search (index : List ChatChunk)
    (embedOutcome : Except String (List ℝ)) (top_k : ℕ) (min_score : ℝ) :
    Except String (List RetrievalResult) :=
  if index.isEmpty then .ok []
  else
    match embedOutcome with
    | .error e => .error e
    | .ok query_embedding =>
        if query_embedding.isEmpty then .ok []
        else .ok (searchResults index query_embedding top_k min_score)

theorem mem_scoredChunks (q : List ℝ) (ms : ℝ) :
    ∀ index : List ChatChunk, ∀ p ∈ scoredChunks q ms index,
      ∃ v, p.1.embedding = some v ∧ v ≠ [] ∧
        p.2 = cosine_similarity q v ∧ ms ≤ p.2 := by
  intro index
  induction index with
  | nil => intro p hp; simp [scoredChunks] at hp
  | cons c cs ih =>
    intro p hp
    rw [scoredChunks] at hp
    rcases hemb : c.embedding with _ | v
    · simp only [hemb] at hp
      exact ih p hp
    · simp only [hemb] at hp
      by_cases hv : v = []
      · rw [if_pos hv] at hp
        exact ih p hp
      · rw [if_neg hv] at hp
        by_cases hs : ms ≤ cosine_similarity q v
        · rw [if_pos hs] at hp
          rcases List.mem_cons.1 hp with h | h
          · subst h
            exact ⟨v, hemb, hv, rfl, hs⟩
          · exact ih p h
        · rw [if_neg hs] at hp
          exact ih p hp

theorem insertDesc_perm (x : ChatChunk × ℝ) (l : List (ChatChunk × ℝ)) :
    (insertDesc x l).Perm (x :: l) := by
  induction l with
  | nil => rw [insertDesc]
  | cons y ys ih =>
    rw [insertDesc]
    split
    · exact List.Perm.refl _
    · exact (List.Perm.cons y ih).trans (List.Perm.swap x y ys)

theorem sortByScoreDesc_perm (l : List (ChatChunk × ℝ)) :
    (sortByScoreDesc l).Perm l := by
  induction l with
  | nil => rw [sortByScoreDesc]
  | cons x xs ih =>
    rw [sortByScoreDesc]
    exact (insertDesc_perm x (sortByScoreDesc xs)).trans (List.Perm.cons x ih)

theorem mem_insertDesc (x z : ChatChunk × ℝ) (l : List (ChatChunk × ℝ))
    (hz : z ∈ insertDesc x l) : z = x ∨ z ∈ l := by
  have := (insertDesc_perm x l).mem_iff.1 hz
  simpa using this

theorem insertDesc_sorted (x : ChatChunk × ℝ) (l : List (ChatChunk × ℝ))
    (hl : l.Pairwise (fun a b => b.2 ≤ a.2)) :
    (insertDesc x l).Pairwise (fun a b => b.2 ≤ a.2) := by
  induction l with
  | nil => simp [insertDesc]
  | cons y ys ih =>
    rw [insertDesc]
    rcases List.pairwise_cons.1 hl with ⟨hy, hys⟩
    split
    · rename_i hle
      refine List.pairwise_cons.2 ⟨?_, hl⟩
      intro z hz
      rcases List.mem_cons.1 hz with h | h
      · subst h; exact hle
      · exact le_trans (hy z h) hle
    · rename_i hgt
      push_neg at hgt
      refine List.pairwise_cons.2 ⟨?_, ih hys⟩
      intro z hz
      rcases mem_insertDesc x z ys hz with h | h
      · subst h; exact le_of_lt hgt
      · exact hy z h

theorem sortByScoreDesc_sorted (l : List (ChatChunk × ℝ)) :
    (sortByScoreDesc l).Pairwise (fun a b => b.2 ≤ a.2) := by
  induction l with
  | nil => simp [sortByScoreDesc]
  | cons x xs ih =>
    rw [sortByScoreDesc]
    exact insertDesc_sorted x _ ih

theorem sublist_insertDesc (x : ChatChunk × ℝ) (l : List (ChatChunk × ℝ)) :
    l.Sublist (insertDesc x l) := by
  induction l with
  | nil => simp [insertDesc]
  | cons y ys ih =>
    rw [insertDesc]
    split
    · exact List.Sublist.cons x (List.Sublist.refl _)
    · exact List.Sublist.cons₂ y ih

theorem cons_sublist_insertDesc (x : ChatChunk × ℝ) :
    ∀ (m c : List (ChatChunk × ℝ)), c.Sublist m → (∀ y ∈ c, y.2 = x.2) →
      (x :: c).Sublist (insertDesc x m) := by
  intro m
  induction m with
  | nil =>
    intro c hc _
    rw [List.sublist_nil.1 hc, insertDesc]
  | cons h t ih =>
    intro c hc hs
    rw [insertDesc]
    split
    · exact List.Sublist.cons₂ x hc
    · rename_i hgt
      push_neg at hgt
      cases hc with
      | cons _ hc' =>
        exact List.Sublist.cons h (ih c hc' hs)
      | cons₂ _ hc' =>
        exfalso
        have : h.2 = x.2 := hs h (List.mem_cons_self h _)
        exact absurd this (ne_of_gt hgt)

theorem sortByScoreDesc_stable :
    ∀ (l c : List (ChatChunk × ℝ)), c.Sublist l →
      (∀ p ∈ c, ∀ q ∈ c, p.2 = q.2) → c.Sublist (sortByScoreDesc l) := by
  intro l
  induction l with
  | nil =>
    intro c hc _
    rw [List.sublist_nil.1 hc]
    exact List.nil_sublist _
  | cons a t ih =>
    intro c hc hs
    rw [sortByScoreDesc]
    cases hc with
    | cons _ hc' =>
      exact (ih c hc' hs).trans (sublist_insertDesc a _)
    | cons₂ _ hc' =>
      rename_i c'
      refine cons_sublist_insertDesc a _ c'
        (ih c' hc' ?_) ?_
      · intro p hp q hq
        exact hs p (List.mem_cons_of_mem a hp) q (List.mem_cons_of_mem a hq)
      · intro y hy
        exact hs y (List.mem_cons_of_mem a hy) a (List.mem_cons_self a c')

theorem rankResults_map_pair (l : List (ChatChunk × ℝ)) :
    ∀ n : ℤ, (rankResults n l).map (fun r => (r.chunk, r.score)) = l := by
  induction l with
  | nil => intro n; rw [rankResults]; rfl
  | cons p rest ih =>
    intro n
    rw [rankResults, List.map_cons, ih]

theorem rankResults_length (l : List (ChatChunk × ℝ)) :
    ∀ n : ℤ, (rankResults n l).length = l.length := by
  intro n
  have := congrArg List.length (rankResults_map_pair l n)
  simpa using this

theorem mem_rankResults_pair (l : List (ChatChunk × ℝ)) (n : ℤ)
    (r : RetrievalResult) (hr : r ∈ rankResults n l) : (r.chunk, r.score) ∈ l := by
  rw [← rankResults_map_pair l n]
  exact List.mem_map_of_mem _ hr

theorem rankResults_map_score (l : List (ChatChunk × ℝ)) (n : ℤ) :
    (rankResults n l).map (fun r => r.score) = l.map (fun p => p.2) := by
  have := congrArg (List.map Prod.snd) (rankResults_map_pair l n)
  simpa [List.map_map, Function.comp] using this

theorem searchResults_length_le (index : List ChatChunk) (q : List ℝ)
    (top_k : ℕ) (ms : ℝ) : (searchResults index q top_k ms).length ≤ top_k := by
  rw [searchResults, rankResults_length]
  exact List.length_take_le _ _

theorem searchResults_min_score (index : List ChatChunk) (q : List ℝ)
    (top_k : ℕ) (ms : ℝ) :
    ∀ r ∈ searchResults index q top_k ms, ms ≤ r.score := by
  intro r hr
  have hpair := mem_rankResults_pair _ _ _ hr
  have hmem : (r.chunk, r.score) ∈ sortByScoreDesc (scoredChunks q ms index) :=
    (List.take_sublist _ _).mem hpair
  have hscored : (r.chunk, r.score) ∈ scoredChunks q ms index :=
    (sortByScoreDesc_perm _).mem_iff.1 hmem
  obtain ⟨v, _, _, _, hms⟩ := mem_scoredChunks q ms index _ hscored
  exact hms

theorem searchResults_sorted (index : List ChatChunk) (q : List ℝ)
    (top_k : ℕ) (ms : ℝ) :
    ((searchResults index q top_k ms).map (fun r => r.score)).Pairwise
      (fun a b => b ≤ a) := by
  rw [searchResults, rankResults_map_score]
  have hsorted := sortByScoreDesc_sorted (scoredChunks q ms index)
  have htake := hsorted.sublist (List.take_sublist top_k _)
  exact List.pairwise_map.2 htake

theorem searchResults_chunk_has_vector (index : List ChatChunk) (q : List ℝ)
    (top_k : ℕ) (ms : ℝ) :
    ∀ r ∈ searchResults index q top_k ms,
      ∃ v, r.chunk.embedding = some v ∧ v ≠ [] := by
  intro r hr
  have hpair := mem_rankResults_pair _ _ _ hr
  have hmem : (r.chunk, r.score) ∈ sortByScoreDesc (scoredChunks q ms index) :=
    (List.take_sublist _ _).mem hpair
  have hscored : (r.chunk, r.score) ∈ scoredChunks q ms index :=
    (sortByScoreDesc_perm _).mem_iff.1 hmem
  obtain ⟨v, hv, hvne, _, _⟩ := mem_scoredChunks q ms index _ hscored
  exact ⟨v, hv, hvne⟩

theorem search_error_eq (index : List ChatChunk) (e : String) (top_k : ℕ)
    (min_score : ℝ) :
    search index (.error e) top_k min_score =
      if index.isEmpty then .ok [] else .error e := rfl

theorem search_ok_eq (index : List ChatChunk) (q : List ℝ) (top_k : ℕ)
    (min_score : ℝ) :
    search index (.ok q) top_k min_score =
      if index.isEmpty then .ok []
      else if q.isEmpty then .ok []
      else .ok (searchResults index q top_k min_score) := rfl

/-- C2 (amended): `search` caps results at `top_k`, filters by `min_score`,
sorts descending by score with ties kept in index (insertion) order, returns
`[]` for an empty index and for an empty (falsy) query embedding — but an
exception raised by the query-embedding call propagates out of `search`
rather than yielding `[]`. -/
theorem search_spec (index : List ChatChunk) (embedOutcome : Except String (List ℝ))
    (top_k : ℕ) (min_score : ℝ) :
    (index = [] → search index embedOutcome top_k min_score = .ok []) ∧
    (embedOutcome = .ok [] → search index embedOutcome top_k min_score = .ok []) ∧
    (∀ e, index ≠ [] → embedOutcome = .error e →
      search index embedOutcome top_k min_score = .error e) ∧
    (∀ rs, search index embedOutcome top_k min_score = .ok rs →
      rs.length ≤ top_k ∧
      (∀ r ∈ rs, min_score ≤ r.score) ∧
      (rs.map (fun r => r.score)).Pairwise (fun a b => b ≤ a)) ∧
    (∀ q, embedOutcome = .ok q → q ≠ [] → index ≠ [] →
      search index embedOutcome top_k min_score =
        .ok (searchResults index q top_k min_score) ∧
      (∀ c : List (ChatChunk × ℝ), c.Sublist (scoredChunks q min_score index) →
        (∀ p ∈ c, ∀ p' ∈ c, p.2 = p'.2) →
        c.Sublist (sortByScoreDesc (scoredChunks q min_score index)))) := by
  refine ⟨?_, ?_, ?_, ?_, ?_⟩
  · intro h
    subst h
    cases embedOutcome with
    | error e => rw [search_error_eq]; rfl
    | ok q => rw [search_ok_eq]; rfl
  · intro h
    subst h
    rw [search_ok_eq]
    by_cases hidx : index.isEmpty
    · rw [if_pos hidx]
    · rw [if_neg hidx]
      rfl
  · intro e hidx he
    subst he
    rw [search_error_eq, if_neg (by simpa [List.isEmpty_iff] using hidx)]
  · intro rs hrs
    cases embedOutcome with
    | error e =>
      rw [search_error_eq] at hrs
      by_cases hidx : index.isEmpty
      · rw [if_pos hidx] at hrs
        cases hrs
        exact ⟨by simp, by simp, by simp⟩
      · rw [if_neg hidx] at hrs
        exact absurd hrs (by simp)
    | ok q =>
      rw [search_ok_eq] at hrs
      by_cases hidx : index.isEmpty
      · rw [if_pos hidx] at hrs
        cases hrs
        exact ⟨by simp, by simp, by simp⟩
      · rw [if_neg hidx] at hrs
        by_cases hq : q.isEmpty
        · rw [if_pos hq] at hrs
          cases hrs
          exact ⟨by simp, by simp, by simp⟩
        · rw [if_neg hq] at hrs
          cases hrs
          exact ⟨searchResults_length_le index q top_k min_score,
            searchResults_min_score index q top_k min_score,
            searchResults_sorted index q top_k min_score⟩
  · intro q hq hqne hidx
    subst hq
    constructor
    · rw [search_ok_eq, if_neg (by simpa [List.isEmpty_iff] using hidx),
        if_neg (by simpa [List.isEmpty_iff] using hqne)]
    · intro c hc hs
      exact sortByScoreDesc_stable _ c hc hs

/-- Concrete chunk with an attached embedding, used by witnesses and
counterexamples. -/
def exampleChunkE : ChatChunk :=
  { chunk_id := "chat_generic_1", exchange_number := 1, student_prompt := "hi",
    ai_response := "hello", embedding := some [1] }

/-- Counterexample for C2 as stated: with a non-empty index, a query-embedding
call that fails (raises) makes `search` propagate the error instead of
returning the empty list. -/
theorem search_embed_failure_counterexample :
    search [exampleChunkE] (.error "Embedding generation failed: connection refused")
        5 (1 / 4) =
      .error "Embedding generation failed: connection refused" ∧
    ∀ rs, search [exampleChunkE]
        (.error "Embedding generation failed: connection refused") 5 (1 / 4) ≠
      .ok rs := by
  constructor
  · rfl
  · intro rs h
    exact absurd h (by simp [search, exampleChunkE])

/-- Witness for C2 (amended) at a concrete index and failing embedding call. -/
theorem search_spec_witness :
    ([exampleChunkE] ≠ ([] : List ChatChunk)) ∧
    search [exampleChunkE] (.error "boom") 5 (1 / 4) = .error "boom" := by
  have hne : [exampleChunkE] ≠ ([] : List ChatChunk) := by simp
  exact ⟨hne,
    (search_spec [exampleChunkE] (.error "boom") 5 (1 / 4)).2.2.1 "boom" hne rfl⟩

/-- C9: the retriever index only ever contains units carrying a vector —
`add_chunks` filters out every unit whose embedding is `None`, every index
state reachable through the API satisfies the invariant, and no result
returned by `search` has a vectorless chunk. -/
theorem index_vector_invariant :
    (∀ s new c, c ∈ add_chunks s new → c ∈ s ∨ c.embedding ≠ none) ∧
    (∀ s new c, c ∈ new → c.embedding = none → c ∉ add_chunks s new ∨ c ∈ s) ∧
    (∀ s, ReachableIndex s → ∀ c ∈ s, c.embedding ≠ none) ∧
    (∀ index embedOutcome top_k min_score rs r,
      search index embedOutcome top_k min_score = .ok rs → r ∈ rs →
      r.chunk.embedding ≠ none) := by
  have hadd : ∀ s new : List ChatChunk, ∀ c : ChatChunk,
      c ∈ add_chunks s new → c ∈ s ∨ c.embedding ≠ none := by
    intro s new c hc
    rcases List.mem_append.1 hc with h | h
    · exact Or.inl h
    · right
      have := List.of_mem_filter h
      simpa [Option.isSome_iff_ne_none] using this
  refine ⟨hadd, ?_, ?_, ?_⟩
  · intro s new c _ hnone
    by_cases hs : c ∈ s
    · exact Or.inr hs
    · left
      intro hmem
      rcases hadd s new c hmem with h | h
      · exact hs h
      · exact h hnone
  · intro s hs
    induction hs with
    | init => intro c hc; simp at hc
    | add s new hr ih =>
      intro c hc
      rcases hadd s new c hc with h | h
      · exact ih c h
      · exact h
    | clear s hr ih => intro c hc; simp at hc
  · intro index embedOutcome top_k min_score rs r hrs hr
    cases embedOutcome with
    | error e =>
      rw [search_error_eq] at hrs
      by_cases hidx : index.isEmpty
      · rw [if_pos hidx] at hrs
        cases hrs
        simp at hr
      · rw [if_neg hidx] at hrs
        exact absurd hrs (by simp)
    | ok q =>
      rw [search_ok_eq] at hrs
      by_cases hidx : index.isEmpty
      · rw [if_pos hidx] at hrs
        cases hrs
        simp at hr
      · rw [if_neg hidx] at hrs
        by_cases hq : q.isEmpty
        · rw [if_pos hq] at hrs
          cases hrs
          simp at hr
        · rw [if_neg hq] at hrs
          cases hrs
          obtain ⟨v, hv, _⟩ := searchResults_chunk_has_vector index q top_k min_score r hr
          simp [hv]

/-- Witness for C9 at a concrete reachable one-chunk index. -/
theorem index_vector_invariant_witness :
    ReachableIndex (add_chunks [] [exampleChunkE]) ∧
    exampleChunkE ∈ add_chunks [] [exampleChunkE] ∧
    exampleChunkE.embedding ≠ none := by
  have hr : ReachableIndex (add_chunks [] [exampleChunkE]) :=
    ReachableIndex.add [] [exampleChunkE] ReachableIndex.init
  have hmem : exampleChunkE ∈ add_chunks [] [exampleChunkE] := by
    simp [add_chunks, exampleChunkE]
  exact ⟨hr, hmem, index_vector_invariant.2.2.1 _ hr exampleChunkE hmem⟩

/-! ### Response normalizer: `AssessmentEngine._parse_json_response`
(`app/services/assessment/analyzer.py` lines 475-501).

The normalizer calls `orjson.loads`, a third-party strict JSON parser; it is
modelled here by an executable recursive-descent JSON parser over the
character list of the input (`orjson_loads`).  The model covers objects,
arrays, strings with the common escapes, numbers (sign, fraction, exponent)
as rationals, booleans and null, and rejects trailing non-whitespace input,
as the library does.  Unicode escapes are conservatively modelled as parse
failures. -/

/-- JSON values as returned by the modelled `orjson.loads`. -/
inductive Json where
  | jnull
  | jbool (b : Bool)
  | jnum (q : ℚ)
  | jstr (s : String)
  | jarr (elems : List Json)
  | jobj (fields : List (String × Json))

/-- Opening curly brace character. -/
def lbrace : Char := '\x7b'

/-- Closing curly brace character. -/
def rbrace : Char := '\x7d'

/-- JSON whitespace. -/
def isJsonWs (c : Char) : Bool := c = ' ' || c = '\n' || c = '\t' || c = '\r'

/-- Skip leading JSON whitespace. -/
def skipWs : List Char → List Char
  | [] => []
  | c :: cs => if isJsonWs c then skipWs cs else c :: cs

/-- Translation of the common JSON string escapes. -/
def escChar (e : Char) : Option Char :=
  if e = '"' then some '"'
  else if e = '\\' then some '\\'
  else if e = '/' then some '/'
  else if e = 'n' then some '\n'
  else if e = 't' then some '\t'
  else if e = 'r' then some '\r'
  else if e = 'b' then some (Char.ofNat 8)
  else if e = 'f' then some (Char.ofNat 12)
  else none

/-- Parse the body of a JSON string after the opening quote, accumulating
characters until the closing quote. -/
def parseStringBody (fuel : ℕ) (cs : List Char) (acc : List Char) :
    Option (String × List Char) :=
  match fuel with
  | 0 => none
  | f + 1 =>
    match cs with
    | [] => none
    | c :: rest =>
      if c = '"' then some (⟨acc.reverse⟩, rest)
      else if c = '\\' then
        match rest with
        | [] => none
        | e :: rest2 =>
          match escChar e with
          | some d => parseStringBody f rest2 (d :: acc)
          | none => none
      else parseStringBody f rest (c :: acc)

/-- Decimal digits to a natural number. -/
def digitsToNat (ds : List Char) : ℕ :=
  ds.foldl (fun n c => 10 * n + (c.toNat - 48)) 0

/-- Parse an optional exponent part of a JSON number. -/
def parseExponent (base : ℚ) (cs : List Char) : Option (ℚ × List Char) :=
  match cs with
  | [] => some (base, cs)
  | c :: r =>
    if c = 'e' ∨ c = 'E' then
      match r with
      | '-' :: r2 =>
        let es := r2.takeWhile Char.isDigit
        if es = [] then none
        else some (base / (10 : ℚ) ^ (digitsToNat es), r2.dropWhile Char.isDigit)
      | '+' :: r2 =>
        let es := r2.takeWhile Char.isDigit
        if es = [] then none
        else some (base * (10 : ℚ) ^ (digitsToNat es), r2.dropWhile Char.isDigit)
      | _ =>
        let es := r.takeWhile Char.isDigit
        if es = [] then none
        else some (base * (10 : ℚ) ^ (digitsToNat es), r.dropWhile Char.isDigit)
    else some (base, cs)

/-- Parse an unsigned JSON number (digits, optional fraction, optional
exponent). -/
def parseUnsignedNumber (cs : List Char) : Option (ℚ × List Char) :=
  let ds := cs.takeWhile Char.isDigit
  let rest := cs.dropWhile Char.isDigit
  if ds = [] then none
  else
    match rest with
    | '.' :: r =>
      let fs := r.takeWhile Char.isDigit
      let r2 := r.dropWhile Char.isDigit
      if fs = [] then none
      else parseExponent
        ((digitsToNat ds : ℚ) + (digitsToNat fs : ℚ) / (10 : ℚ) ^ fs.length) r2
    | _ => parseExponent (digitsToNat ds : ℚ) rest

/-- Parse a JSON number with optional leading minus sign. -/
def parseNumber (cs : List Char) : Option (ℚ × List Char) :=
  match cs with
  | '-' :: rest => (parseUnsignedNumber rest).map (fun p => (-p.1, p.2))
  | _ => parseUnsignedNumber cs

mutual

/-- Parse one JSON value. -/
def parseValue : ℕ → List Char → Option (Json × List Char)
  | 0, _ => none
  | f + 1, cs =>
    match skipWs cs with
    | [] => none
    | c :: rest =>
      if c = '"' then
        match parseStringBody (rest.length + 1) rest [] with
        | some (s, r) => some (.jstr s, r)
        | none => none
      else if c = lbrace then
        match skipWs rest with
        | d :: r2 =>
          if d = rbrace then some (.jobj [], r2)
          else parseMembers f (d :: r2) []
        | [] => none
      else if c = '[' then
        match skipWs rest with
        | d :: r2 =>
          if d = ']' then some (.jarr [], r2)
          else parseElements f (d :: r2) []
        | [] => none
      else if c = 't' then
        match rest with
        | 'r' :: 'u' :: 'e' :: r => some (.jbool true, r)
        | _ => none
      else if c = 'f' then
        match rest with
        | 'a' :: 'l' :: 's' :: 'e' :: r => some (.jbool false, r)
        | _ => none
      else if c = 'n' then
        match rest with
        | 'u' :: 'l' :: 'l' :: r => some (.jnull, r)
        | _ => none
      else
        match parseNumber (c :: rest) with
        | some (q, r) => some (.jnum q, r)
        | none => none

/-- Parse the members of a JSON object after the opening brace. -/
def parseMembers : ℕ → List Char → List (String × Json) → Option (Json × List Char)
  | 0, _, _ => none
  | f + 1, cs, acc =>
    match skipWs cs with
    | '"' :: rest =>
      match parseStringBody (rest.length + 1) rest [] with
      | some (key, r1) =>
        match skipWs r1 with
        | ':' :: r2 =>
          match parseValue f r2 with
          | some (v, r3) =>
            match skipWs r3 with
            | [] => none
            | d :: r4 =>
              if d = ',' then parseMembers f r4 (acc ++ [(key, v)])
              else if d = rbrace then some (.jobj (acc ++ [(key, v)]), r4)
              else none
          | none => none
        | _ => none
      | none => none
    | _ => none

/-- Parse the elements of a JSON array after the opening bracket. -/
def parseElements : ℕ → List Char → List Json → Option (Json × List Char)
  | 0, _, _ => none
  | f + 1, cs, acc =>
    match parseValue f cs with
    | some (v, r) =>
      match skipWs r with
      | ',' :: r2 => parseElements f r2 (acc ++ [v])
      | ']' :: r2 => some (.jarr (acc ++ [v]), r2)
      | _ => none
    | none => none

end

/-- Models `orjson.loads`: parse the whole input as one JSON document,
rejecting trailing non-whitespace, returning `none` where the library
raises. -/
def orjson_loads (s : String) : Option Json :=
  match parseValue (s.length + 1) s.data with
  | some (v, rest) => if skipWs rest = [] then some v else none
  | none => none

/-- First index at which `needle` occurs in the scanned list, starting the
count at `i`; models Python `str.index` / the `in` operator. -/
def findSubstrAux (needle : List Char) : List Char → ℕ → Option ℕ
  | [], i => if needle = [] then some i else none
  | c :: cs, i =>
    if needle.isPrefixOf (c :: cs) then some i else findSubstrAux needle cs (i + 1)

/-- First index of `needle` in `hay`, if any. -/
def findSubstr (hay needle : List Char) : Option ℕ := findSubstrAux needle hay 0

/-- The characters of the opening fence tag. -/
def fenceTag : List Char := ("```json").data

/-- The characters of a closing fence. -/
def fenceClose : List Char := ("```").data

/-- Embeds the second attempt of `_parse_json_response` (lines 484-490): if
the text contains a fenced block tagged `json`, parse the slice between
`index("```json") + 7` and the next closing fence; any failure (no closing
fence, or unparseable interior) falls through. -/
def fencedAttempt (text : String) : Option Json :=
  let cs := text.data
  match findSubstr cs fenceTag with
  | none => none
  | some i =>
    match findSubstr (cs.drop (i + 7)) fenceClose with
    | none => none
    | some j => orjson_loads ⟨(cs.drop (i + 7)).take j⟩

/-- Embeds the third attempt of `_parse_json_response` (lines 492-498): parse
the substring from the first opening brace to the last closing brace; any
failure (no such braces, or unparseable slice) falls through. -/
def braceAttempt (text : String) : Option Json :=
  let cs := text.data
  match cs.findIdx? (fun c => c == lbrace), cs.reverse.findIdx? (fun c => c == rbrace) with
  | some s, some rj => orjson_loads ⟨(cs.drop s).take (cs.length - 1 - rj + 1 - s)⟩
  | _, _ => none

/-- Embeds `_parse_json_response`: direct parse, then fenced-block parse,
then first-brace-to-last-brace parse, then the empty mapping. -/
def parse_json_response (text : String) : Json :=
  match orjson_loads text with
  | some v => v
  | none =>
    match fencedAttempt text with
    | some v => v
    | none =>
      match braceAttempt text with
      | some v => v
      | none => .jobj []

/-- The spec's fenced-block example, with a concrete JSON payload. -/
def fencedExample : String :=
  "Here is the result: ```json\n\x7b\"points_earned\": 8\x7d\n``` Thanks!"

/-- Unparseable prose containing no braces. -/
def proseExample : String :=
  "I could not produce a score for this submission."

/-- C4: the response normalizer tries, in order, a direct parse, a fenced
```json block parse, and a first-brace-to-last-brace parse; when all three
fail it returns the empty mapping (it is a total function, so it never
raises); on the spec's fenced example it extracts the inner JSON object, and
on prose with no braces (and no fence) it returns the empty mapping. -/
theorem parse_json_response_spec :
    (∀ text v, orjson_loads text = some v → parse_json_response text = v) ∧
    (∀ text v, orjson_loads text = none → fencedAttempt text = some v →
      parse_json_response text = v) ∧
    (∀ text v, orjson_loads text = none → fencedAttempt text = none →
      braceAttempt text = some v → parse_json_response text = v) ∧
    (∀ text, orjson_loads text = none → fencedAttempt text = none →
      braceAttempt text = none → parse_json_response text = .jobj []) ∧
    parse_json_response fencedExample = .jobj [("points_earned", .jnum 8)] ∧
    (∀ text, orjson_loads text = none → findSubstr text.data fenceTag = none →
      lbrace ∉ text.data → parse_json_response text = .jobj []) ∧
    parse_json_response proseExample = .jobj [] := by
  have hdirect : ∀ text v, orjson_loads text = some v → parse_json_response text = v := by
    intro text v h
    rw [parse_json_response, h]
  have hfenced : ∀ text v, orjson_loads text = none → fencedAttempt text = some v →
      parse_json_response text = v := by
    intro text v h1 h2
    rw [parse_json_response, h1, h2]
  have hbrace : ∀ text v, orjson_loads text = none → fencedAttempt text = none →
      braceAttempt text = some v → parse_json_response text = v := by
    intro text v h1 h2 h3
    rw [parse_json_response, h1, h2, h3]
  have hfail : ∀ text, orjson_loads text = none → fencedAttempt text = none →
      braceAttempt text = none → parse_json_response text = .jobj [] := by
    intro text h1 h2 h3
    rw [parse_json_response, h1, h2, h3]
  refine ⟨hdirect, hfenced, hbrace, hfail, by rfl, ?_, by rfl⟩
  intro text h1 h2 h3
  refine hfail text h1 ?_ ?_
  · rw [fencedAttempt]
    simp only [h2]
  · rw [braceAttempt]
    have : text.data.findIdx? (fun c => c == lbrace) = none := by
      rw [List.findIdx?_eq_none_iff]
      intro c hc
      simp only [beq_eq_false_iff_ne, ne_eq]
      intro hcl
      exact h3 (hcl ▸ hc)
    simp only [this]

/-- Witness for C4: the direct-parse attempt applied at the literal `"3"`. -/
theorem parse_json_response_spec_witness :
    orjson_loads "3" = some (Json.jnum 3) ∧ parse_json_response "3" = Json.jnum 3 :=
  ⟨by rfl, parse_json_response_spec.1 "3" (Json.jnum 3) (by rfl)⟩

/-! ### Rubric data: `app/services/rubric/loader.py` -/

/-- Embeds the `LevelData` dataclass. -/
structure LevelData where
  name : String
  min_points : ℤ
  max_points : ℤ
  description : String
  order : ℤ := 0

/-- Embeds the `CriterionData` dataclass. -/
structure CriterionData where
  name : String
  points : ℤ
  levels : List LevelData := []
  description : Option String := none
  order : ℤ := 0

/-- Embeds the `CategoryData` dataclass. -/
structure CategoryData where
  name : String
  weight : ℤ
  criteria : List CriterionData := []
  description : Option String := none
  order : ℤ := 0

/-- Embeds the `RubricData` dataclass. -/
structure RubricData where
  name : String
  description : String
  version : String
  total_points : ℤ
  categories : List CategoryData := []

/-! ### Assessment engine: `app/services/assessment/analyzer.py` -/

/-- Embeds the `Evidence` dataclass (lines 36-52). -/
structure Evidence where
  type : String
  reference : String
  citation : String
  excerpt : String
  analysis : String

/-- Embeds the `CriterionAssessment` dataclass (lines 55-79). -/
structure CriterionAssessment where
  criterion_name : String
  criterion_id : String
  points_possible : ℤ
  points_earned : ℝ
  level : String
  reasoning : String
  evidence : List Evidence
  feedback : String
  confidence : String

/-- Embeds the `AuthenticityResult` dataclass (lines 82-98); the `flags` are
kept as untyped JSON values, as in the code. -/
structure AuthenticityResult where
  score : ℤ
  confidence : String
  flags : List Json
  positive_indicators : List String
  overall_assessment : String

/-- Typed view of the mapping returned by `_parse_json_response` as consumed
by `_assess_criterion` for one evidence entry (lines 355-362): each field is
`none` exactly when the key is absent from the generator's response. -/
structure ParsedEvidence where
  type : Option String := none
  reference : Option String := none
  citation : Option String := none
  excerpt : Option String := none
  analysis : Option String := none

/-- Typed view of the normalized generator response consumed by
`_assess_criterion` (lines 350-374).  `points_earned` is the numeric value
the generator supplied for that key, `none` when absent. -/
structure ParsedCriterionResult where
  points_earned : Option ℝ := none
  level : Option String := none
  reasoning : Option String := none
  evidence : List ParsedEvidence := []
  feedback : Option String := none
  confidence : Option String := none

/-- Embeds the evidence construction of `_assess_criterion` (lines 355-362):
defaults applied per field and the excerpt truncated to 200 characters. -/
def buildEvidence (ev : ParsedEvidence) : Evidence :=
  { type := ev.type.getD "unknown"
    reference := ev.reference.getD ""
    citation := ev.citation.getD ""
    excerpt := (ev.excerpt.getD "").take 200
    analysis := ev.analysis.getD "" }

/-- Embeds the `CriterionAssessment` construction of `_assess_criterion`
(lines 364-374): `points_earned` is
`min(float(result.get("points_earned", 0)), criterion.points)` — an upper
clamp only. -/
noncomputable def assess_criterion_build (criterion : CriterionData)
    (result : ParsedCriterionResult) : CriterionAssessment :=
  { criterion_name := criterion.name
    criterion_id := "crit_" ++ (criterion.name.replace " " "_").toLower
    points_possible := criterion.points
    points_earned := min (result.points_earned.getD 0) (criterion.points : ℝ)
    level := result.level.getD "inadequate"
    reasoning := result.reasoning.getD "No reasoning provided"
    evidence := result.evidence.map buildEvidence
    feedback := result.feedback.getD "No feedback provided"
    confidence := result.confidence.getD "low" }

/-- Embeds the zero-point placeholder substituted when assessing one
criterion raises (analyzer.py lines 247-257). -/
def placeholderAssessment (criterion : CriterionData) (e : String) :
    CriterionAssessment :=
  { criterion_name := criterion.name
    criterion_id := "err_" ++ criterion.name
    points_possible := criterion.points
    points_earned := 0
    level := "inadequate"
    reasoning := "Assessment failed: " ++ e
    evidence := []
    feedback := "Unable to assess this criterion due to an error."
    confidence := "low" }

/-- The error string recorded for a failed criterion (line 245). -/
def criterionErrorString (criterion : CriterionData) (e : String) : String :=
  "Criterion '" ++ criterion.name ++ "' failed: " ++ e

/-- The assessment appended for one criterion: the built assessment when
`_assess_criterion` returns, the placeholder when it raises.  The outcome of
the retrieval + inference + normalization part of `_assess_criterion` is the
oracle `outcome`; the final construction (lines 353-374) is total. -/
noncomputable def criterionResultOf
    (outcome : CriterionData → Except String ParsedCriterionResult)
    (criterion : CriterionData) : CriterionAssessment :=
  match outcome criterion with
  | .ok r => assess_criterion_build criterion r
  | .error e => placeholderAssessment criterion e

/-- The error strings appended for one criterion: exactly one on failure,
none on success (lines 244-245). -/
def criterionErrorsOf (outcome : CriterionData → Except String ParsedCriterionResult)
    (criterion : CriterionData) : List String :=
  match outcome criterion with
  | .ok _ => []
  | .error e => [criterionErrorString criterion e]

/-- One iteration of the criterion loop (lines 232-257): append either the
built assessment or the placeholder, and on failure one error string. -/
noncomputable def criterionStep
    (outcome : CriterionData → Except String ParsedCriterionResult)
    (acc : List CriterionAssessment × List String) (criterion : CriterionData) :
    List CriterionAssessment × List String :=
  match outcome criterion with
  | .ok r => (acc.1 ++ [assess_criterion_build criterion r], acc.2)
  | .error e =>
      (acc.1 ++ [placeholderAssessment criterion e],
       acc.2 ++ [criterionErrorString criterion e])

/-- Embeds the nested `for category in rubric.categories: for criterion in
category.criteria:` loop of `assess` (lines 232-257), threading the
assessment list and error list. -/
noncomputable def assessAllCriteria (rubric : RubricData)
    (outcome : CriterionData → Except String ParsedCriterionResult) :
    List CriterionAssessment × List String :=
  rubric.categories.foldl
    (fun acc category => category.criteria.foldl (criterionStep outcome) acc)
    ([], [])

/-- The rubric's criteria in rubric-declared (category then criterion)
order. -/
def allCriteria (rubric : RubricData) : List CriterionData :=
  (rubric.categories.map (fun category => category.criteria)).flatten

/-- Embeds `total_score = sum(ca.points_earned ...)` (line 260). -/
noncomputable def totalScore (cas : List CriterionAssessment) : ℝ :=
  (cas.map (fun ca => ca.points_earned)).sum

/-- Embeds `total_possible = sum(ca.points_possible ...)` (line 261). -/
def totalPossible (cas : List CriterionAssessment) : ℤ :=
  (cas.map (fun ca => ca.points_possible)).sum

theorem foldl_criterionStep (outcome : CriterionData → Except String ParsedCriterionResult) :
    ∀ (criteria : List CriterionData) (cas : List CriterionAssessment) (errs : List String),
      criteria.foldl (criterionStep outcome) (cas, errs) =
        (cas ++ criteria.map (criterionResultOf outcome),
         errs ++ (criteria.map (criterionErrorsOf outcome)).flatten) := by
  intro criteria
  induction criteria with
  | nil => intro cas errs; simp
  | cons c cs ih =>
    intro cas errs
    rw [List.foldl_cons, criterionStep]
    cases houtcome : outcome c with
    | ok r =>
      rw [ih]
      simp [criterionResultOf, criterionErrorsOf, houtcome]
    | error e =>
      rw [ih]
      simp [criterionResultOf, criterionErrorsOf, houtcome]

theorem assessAllCriteria_eq (rubric : RubricData)
    (outcome : CriterionData → Except String ParsedCriterionResult) :
    assessAllCriteria rubric outcome =
      ((allCriteria rubric).map (criterionResultOf outcome),
       ((allCriteria rubric).map (criterionErrorsOf outcome)).flatten) := by
  rw [assessAllCriteria, allCriteria]
  induction rubric.categories using List.reverseRecOn with
  | nil => simp
  | append_singleton cats cat ih =>
    rw [List.foldl_append, ih, List.foldl_cons, List.foldl_nil]
    rw [foldl_criterionStep]
    simp [List.map_append, List.flatten_append]

/-- Concrete 10-point criterion used by witnesses and counterexamples. -/
def exampleCriterion : CriterionData :=
  { name := "Critical Thinking", points := 10 }

/-- Generator response carrying a negative score. -/
def negativeResult : ParsedCriterionResult := { points_earned := some (-5) }

/-- Generator response carrying an in-range score of 3. -/
def inRangeResult : ParsedCriterionResult := { points_earned := some 3 }

/-- Counterexample for C1 as stated: a generator-provided `points_earned` of
`-5` against a 10-point criterion is stored as `-5` — the built assessment's
`points_earned` is negative, so it does not lie in `[0, points_possible]`. -/
theorem criterion_clamp_counterexample :
    (assess_criterion_build exampleCriterion negativeResult).points_earned = -5 ∧
    ¬(0 ≤ (assess_criterion_build exampleCriterion negativeResult).points_earned) := by
  have h : (assess_criterion_build exampleCriterion negativeResult).points_earned = -5 := by
    simp only [assess_criterion_build, exampleCriterion, negativeResult, Option.getD_some]
    norm_num
  refine ⟨h, ?_⟩
  rw [h]
  norm_num

/-- C1 (amended): a generator-provided `points_earned = p` with
`0 ≤ p ≤ points_possible` is preserved unchanged, `p > points_possible` is
clamped down to `points_possible`, and the stored value never exceeds
`points_possible`; but there is no lower clamp — any `p ≤ points_possible`,
including a negative one, is stored unchanged. -/
theorem criterion_points_clamp (criterion : CriterionData)
    (result : ParsedCriterionResult) (p : ℝ) (hp : result.points_earned = some p) :
    (0 ≤ p → p ≤ (criterion.points : ℝ) →
      (assess_criterion_build criterion result).points_earned = p) ∧
    ((criterion.points : ℝ) < p →
      (assess_criterion_build criterion result).points_earned = (criterion.points : ℝ)) ∧
    (assess_criterion_build criterion result).points_earned ≤ (criterion.points : ℝ) ∧
    (p ≤ (criterion.points : ℝ) →
      (assess_criterion_build criterion result).points_earned = p) := by
  have hpe : (assess_criterion_build criterion result).points_earned =
      min p (criterion.points : ℝ) := by
    simp [assess_criterion_build, hp]
  refine ⟨?_, ?_, ?_, ?_⟩
  · intro _ hle
    rw [hpe]
    exact min_eq_left hle
  · intro hgt
    rw [hpe]
    exact min_eq_right (le_of_lt hgt)
  · rw [hpe]
    exact min_le_right _ _
  · intro hle
    rw [hpe]
    exact min_eq_left hle

/-- Witness for C1 (amended): a score of 3 against a 10-point criterion is
preserved unchanged. -/
theorem criterion_points_clamp_witness :
    inRangeResult.points_earned = some 3 ∧
    (assess_criterion_build exampleCriterion inRangeResult).points_earned = 3 := by
  refine ⟨rfl, ?_⟩
  refine (criterion_points_clamp exampleCriterion inRangeResult 3 rfl).1 (by norm_num) ?_
  show (3 : ℝ) ≤ ((10 : ℤ) : ℝ)
  norm_num

/-- C5: a failure while scoring one criterion is caught; the loop appends
exactly one error string naming that criterion, substitutes the zero-point
placeholder (`points_earned = 0`, `level = "inadequate"`,
`confidence = "low"`, empty evidence), and continues, so the run ends with
one assessment per rubric criterion. -/
theorem criterion_failure_isolation (rubric : RubricData)
    (outcome : CriterionData → Except String ParsedCriterionResult) :
    (assessAllCriteria rubric outcome).1.length = (allCriteria rubric).length ∧
    (assessAllCriteria rubric outcome).1 =
      (allCriteria rubric).map (criterionResultOf outcome) ∧
    (assessAllCriteria rubric outcome).2 =
      ((allCriteria rubric).map (criterionErrorsOf outcome)).flatten ∧
    (∀ c e, outcome c = .error e →
      criterionResultOf outcome c = placeholderAssessment c e ∧
      criterionErrorsOf outcome c = [criterionErrorString c e]) ∧
    (∀ c r, outcome c = .ok r →
      criterionResultOf outcome c = assess_criterion_build c r ∧
      criterionErrorsOf outcome c = []) ∧
    (∀ c e, (placeholderAssessment c e).points_earned = 0 ∧
      (placeholderAssessment c e).level = "inadequate" ∧
      (placeholderAssessment c e).confidence = "low" ∧
      (placeholderAssessment c e).evidence = [] ∧
      (placeholderAssessment c e).points_possible = c.points) := by
  rw [assessAllCriteria_eq]
  refine ⟨by simp, rfl, rfl, ?_, ?_, ?_⟩
  · intro c e he
    rw [criterionResultOf, criterionErrorsOf, he]
    exact ⟨rfl, rfl⟩
  · intro c r hr
    rw [criterionResultOf, criterionErrorsOf, hr]
    exact ⟨rfl, rfl⟩
  · intro c e
    exact ⟨rfl, rfl, rfl, rfl, rfl⟩

/-- Concrete one-category, one-criterion rubric used by witnesses. -/
def exampleRubric : RubricData :=
  { name := "AI Collaboration Rubric", description := "", version := "1.0",
    total_points := 10,
    categories := [{ name := "Process", weight := 10, criteria := [exampleCriterion] }] }

/-- Criterion outcome oracle in which every criterion's scoring raises. -/
def failingOutcome : CriterionData → Except String ParsedCriterionResult :=
  fun _ => .error "LLM call failed"

/-- Witness for C5 at the concrete one-criterion rubric with a failing
criterion stage. -/
theorem criterion_failure_isolation_witness :
    failingOutcome exampleCriterion = .error "LLM call failed" ∧
    (allCriteria exampleRubric).length = 1 ∧
    (assessAllCriteria exampleRubric failingOutcome).1.length = 1 ∧
    criterionErrorsOf failingOutcome exampleCriterion =
      [criterionErrorString exampleCriterion "LLM call failed"] := by
  have hspec := criterion_failure_isolation exampleRubric failingOutcome
  have hlen : (allCriteria exampleRubric).length = 1 := by
    simp [allCriteria, exampleRubric]
  refine ⟨rfl, hlen, ?_, ?_⟩
  · rw [hspec.1, hlen]
  · exact (hspec.2.2.2.1 exampleCriterion "LLM call failed" rfl).2

/-- C10: every completed run carries exactly one `CriterionAssessment` per
rubric criterion, in rubric-declared (category then criterion) order, and
`total_possible` is the sum of every criterion's point value — placeholders
included, since each carries the failed criterion's `points_possible`. -/
theorem assessment_completeness (rubric : RubricData)
    (outcome : CriterionData → Except String ParsedCriterionResult) :
    (assessAllCriteria rubric outcome).1.length = (allCriteria rubric).length ∧
    (assessAllCriteria rubric outcome).1.map (fun ca => ca.criterion_name) =
      (allCriteria rubric).map (fun c => c.name) ∧
    totalPossible (assessAllCriteria rubric outcome).1 =
      ((allCriteria rubric).map (fun c => c.points)).sum := by
  rw [assessAllCriteria_eq]
  have hname : ∀ c, (criterionResultOf outcome c).criterion_name = c.name := by
    intro c
    rw [criterionResultOf]
    cases outcome c with
    | ok r => rfl
    | error e => rfl
  have hposs : ∀ c, (criterionResultOf outcome c).points_possible = c.points := by
    intro c
    rw [criterionResultOf]
    cases outcome c with
    | ok r => rfl
    | error e => rfl
  refine ⟨by simp, ?_, ?_⟩
  · rw [List.map_map]
    refine List.map_congr_left ?_
    intro c _
    exact hname c
  · rw [totalPossible, List.map_map]
    congr 1
    refine List.map_congr_left ?_
    intro c _
    exact hposs c

/-- Typed view of the normalized summary response consumed by `assess`
(lines 300-305); each field is `none` exactly when the key is absent. -/
structure SummaryParsed where
  summary_paragraphs : Option (List String) := none
  key_strengths : Option (List String) := none
  areas_for_growth : Option (List String) := none
  notable_observations : Option String := none
  overall_quality : Option String := none
  recommended_grade : Option String := none

/-- Typed view of the normalized authenticity response consumed by
`_check_authenticity` (lines 467-473). -/
structure ParsedAuthResult where
  authenticity_score : Option ℤ := none
  confidence : Option String := none
  flags : Option (List Json) := none
  positive_indicators : Option (List String) := none
  overall_assessment : Option String := none

/-- Embeds the `AuthenticityResult` construction of `_check_authenticity`
(lines 467-473): `score = result.get("authenticity_score", 50)` — the
generator's value stored unchanged, with no range check. -/
def check_authenticity_build (r : ParsedAuthResult) : AuthenticityResult :=
  { score := r.authenticity_score.getD 50
    confidence := r.confidence.getD "low"
    flags := r.flags.getD []
    positive_indicators := r.positive_indicators.getD []
    overall_assessment := r.overall_assessment.getD "Unable to assess" }

/-- Embeds the `FullAssessment` dataclass (lines 101-148).
`processing_time_seconds` is wall-clock time, not modelled (kept `0`). -/
structure FullAssessment where
  submission_id : Option String
  model_name : String
  timestamp : String
  criterion_assessments : List CriterionAssessment
  total_score : ℝ
  total_possible : ℤ
  summary_paragraphs : List String
  key_strengths : List String
  areas_for_growth : List String
  notable_observations : String
  overall_quality : String
  recommended_grade : String
  authenticity : Option AuthenticityResult := none
  processing_time_seconds : ℝ := 0
  errors : List String := []

/-- Embeds `AssessmentEngine.assess` (lines 177-309) over outcome oracles for
the network-bound stages.  Indexing failure is caught and recorded
(`"Embedding failed: ..."`, lines 224-227); per-criterion failures are
caught inside the loop (see `assessAllCriteria`); the summary stage (lines
267-273) is not wrapped in any handler, so a raised summary exception
propagates to the caller; authenticity failure is caught and recorded
(lines 281-287). -/
noncomputable def assess (rubric : RubricData) (model_name timestamp : String)
    (indexingOutcome : Except String Unit)
    (criterionOutcome : CriterionData → Except String ParsedCriterionResult)
    (summaryOutcome : Except String SummaryParsed)
    (authenticityOutcome : Except String ParsedAuthResult)
    (run_authenticity : Bool) : Except String FullAssessment :=
  let errors0 : List String :=
    match indexingOutcome with
    | .ok _ => []
    | .error e => ["Embedding failed: " ++ e]
  let loopResult := assessAllCriteria rubric criterionOutcome
  match summaryOutcome with
  | .error e => .error e
  | .ok s =>
    let authPair : Option AuthenticityResult × List String :=
      if run_authenticity then
        match authenticityOutcome with
        | .ok r => (some (check_authenticity_build r), errors0 ++ loopResult.2)
        | .error e =>
            (none, (errors0 ++ loopResult.2) ++ ["Authenticity check failed: " ++ e])
      else (none, errors0 ++ loopResult.2)
    .ok { submission_id := none
          model_name := model_name
          timestamp := timestamp
          criterion_assessments := loopResult.1
          total_score := totalScore loopResult.1
          total_possible := totalPossible loopResult.1
          summary_paragraphs := s.summary_paragraphs.getD []
          key_strengths := s.key_strengths.getD []
          areas_for_growth := s.areas_for_growth.getD []
          notable_observations := s.notable_observations.getD ""
          overall_quality := s.overall_quality.getD "unknown"
          recommended_grade := s.recommended_grade.getD "N/A"
          authenticity := authPair.1
          processing_time_seconds := 0
          errors := authPair.2 }

/-- C6: a summary-stage exception is not caught by the orchestrator — it
propagates and the run yields no `FullAssessment`; whereas whenever the
summary stage succeeds the run completes with a `FullAssessment`, for every
combination of indexing, per-criterion and authenticity outcomes, failing
ones included. -/
theorem summary_failure_propagates (rubric : RubricData)
    (model_name timestamp : String) (indexingOutcome : Except String Unit)
    (criterionOutcome : CriterionData → Except String ParsedCriterionResult)
    (summaryOutcome : Except String SummaryParsed)
    (authenticityOutcome : Except String ParsedAuthResult)
    (run_authenticity : Bool) :
    (∀ e, summaryOutcome = .error e →
      assess rubric model_name timestamp indexingOutcome criterionOutcome
        summaryOutcome authenticityOutcome run_authenticity = .error e) ∧
    (∀ s, summaryOutcome = .ok s →
      ∃ fa, assess rubric model_name timestamp indexingOutcome criterionOutcome
        summaryOutcome authenticityOutcome run_authenticity = .ok fa) := by
  constructor
  · intro e he
    subst he
    rfl
  · intro s hs
    subst hs
    exact ⟨_, rfl⟩

/-- Witness for C6: with every other stage failing, a failing summary stage
aborts the run with its error, and a succeeding summary stage completes it. -/
theorem summary_failure_propagates_witness :
    assess exampleRubric "qwen3:32b" "2026-01-01T00:00:00" (.error "embed down")
      failingOutcome (.error "summary LLM timeout") (.error "auth down") true =
      .error "summary LLM timeout" :=
  (summary_failure_propagates exampleRubric "qwen3:32b" "2026-01-01T00:00:00"
    (.error "embed down") failingOutcome (.error "summary LLM timeout")
    (.error "auth down") true).1 "summary LLM timeout" rfl

/-- Generator authenticity response carrying an out-of-range score. -/
def outOfRangeAuth : ParsedAuthResult := { authenticity_score := some 150 }

/-- Authenticity response with the score field absent. -/
def emptyAuthResult : ParsedAuthResult := {}

/-- Counterexample for C8 as stated: a generator-supplied
`authenticity_score` of `150` is stored unchanged, so the returned
`AuthenticityResult` carries a score outside `[0, 100]`. -/
theorem authenticity_range_counterexample :
    (check_authenticity_build outOfRangeAuth).score = 150 ∧
    ¬((check_authenticity_build outOfRangeAuth).score ≤ 100) := by
  constructor
  · rfl
  · intro h
    norm_num [check_authenticity_build, outOfRangeAuth] at h

/-- C8 (amended): the authenticity stage stores the generator's
`authenticity_score` unchanged, defaulting to `50` when absent; the result
lies in `[0, 100]` exactly when the supplied value does (always, when the
field is absent), since no clamping is applied. -/
theorem authenticity_score_passthrough (r : ParsedAuthResult) :
    (check_authenticity_build r).score = r.authenticity_score.getD 50 ∧
    (∀ v, r.authenticity_score = some v → (check_authenticity_build r).score = v) ∧
    (r.authenticity_score = none →
      0 ≤ (check_authenticity_build r).score ∧
      (check_authenticity_build r).score ≤ 100) := by
  refine ⟨rfl, ?_, ?_⟩
  · intro v hv
    rw [check_authenticity_build, hv]
    rfl
  · intro hnone
    rw [check_authenticity_build, hnone]
    norm_num

/-- Witness for C8 (amended): with the score field absent the stored score is
the in-range default `50`. -/
theorem authenticity_score_passthrough_witness :
    emptyAuthResult.authenticity_score = none ∧
    0 ≤ (check_authenticity_build emptyAuthResult).score ∧
    (check_authenticity_build emptyAuthResult).score ≤ 100 :=
  ⟨rfl, (authenticity_score_passthrough emptyAuthResult).2.2 rfl⟩

end ProcessPulse
